import Mathlib

/-!
Verification of the record-matching and temporal-query core of
`Team_project.py` (a contact/notes manager).

Strings are embedded as `List Char` (ASCII fragment of Python `str`);
calendar dates as a `Date` structure with explicit leap-year rules and a
day-number function for date subtraction.  Each Python function named in a
claim is translated to a Lean definition of the same shape; theorems below
settle the claims against those definitions.
-/

namespace TeamProject

/-! ## Characters and strings -/

/-- Python whitespace characters (ASCII fragment), as used by `str.strip`
and `str.split`. -/
def isWsChar (c : Char) : Bool :=
  c == ' ' || c == '\t' || c == '\n' || c == '\r' ||
  c == Char.ofNat 11 || c == Char.ofNat 12

/-- ASCII lower-casing of a single character, as Python `str.lower` acts on
the ASCII range. -/
def lowerChar (c : Char) : Char :=
  if 'A' ≤ c && c ≤ 'Z' then Char.ofNat (c.toNat + 32) else c

/-- `s.lower()` on the ASCII fragment. -/
def lowerCL (s : List Char) : List Char := s.map lowerChar

/-- `s.strip()`: drop whitespace from both ends. -/
def strip (s : List Char) : List Char :=
  ((s.dropWhile isWsChar).reverse.dropWhile isWsChar).reverse

/-- Is `needle` a prefix of the second list? (helper for substring tests) -/
def isPrefixCL : List Char → List Char → Bool
  | [], _ => true
  | _ :: _, [] => false
  | a :: as, b :: bs => a == b && isPrefixCL as bs

/-- Python's `needle in haystack` substring test. -/
def isSubCL (needle : List Char) : List Char → Bool
  | [] => needle.isEmpty
  | c :: rest => isPrefixCL needle (c :: rest) || isSubCL needle rest

/-- Python `str.isdigit` (ASCII fragment): non-empty and all decimal digits. -/
def pyIsDigit (s : List Char) : Bool := !s.isEmpty && s.all Char.isDigit

/-- `int(s)` for a string of decimal digits. -/
def natOfDigits (s : List Char) : Nat :=
  s.foldl (fun a c => a * 10 + (c.toNat - 48)) 0

/-- `" ".join(parts)`. -/
def joinSpace : List (List Char) → List Char
  | [] => []
  | [t] => t
  | t :: rest => t ++ ' ' :: joinSpace rest

/-- A `\w` word character (ASCII fragment): letter, digit or underscore. -/
def isWordChar (c : Char) : Bool := c.isAlphanum || c == '_'

/-- Accumulator form of `re.findall(r"\w+", s)`: maximal runs of word
characters. -/
def wordTokensAux : List Char → List Char → List (List Char)
  | [], cur => if cur.isEmpty then [] else [cur.reverse]
  | c :: rest, cur =>
    if isWordChar c then wordTokensAux rest (c :: cur)
    else if cur.isEmpty then wordTokensAux rest []
    else cur.reverse :: wordTokensAux rest []

/-- `re.findall(r"\w+", s)`. -/
def wordTokens (s : List Char) : List (List Char) := wordTokensAux s []

/-- Accumulator form of whitespace `str.split()` (no empty parts). -/
def splitWsAux : List Char → List Char → List (List Char)
  | [], cur => if cur.isEmpty then [] else [cur.reverse]
  | c :: rest, cur =>
    if isWsChar c then
      if cur.isEmpty then splitWsAux rest []
      else cur.reverse :: splitWsAux rest []
    else splitWsAux rest (c :: cur)

/-- Whitespace `str.split()` with no limit: every maximal non-blank run. -/
def splitWs (s : List Char) : List (List Char) := splitWsAux s []

/-- `s.strip().split(maxsplit=1)`: at most two parts — the first
whitespace-delimited token, then the remainder with its internal spacing
kept (leading separator run dropped). -/
def splitMax1 (s : List Char) : List (List Char) :=
  let t := strip s
  if t.isEmpty then []
  else
    let tok := t.takeWhile (fun c => !isWsChar c)
    let rest := (t.dropWhile (fun c => !isWsChar c)).dropWhile isWsChar
    if rest.isEmpty then [tok] else [tok, rest]

/-- `split(s, '.')` keeping empty parts (accumulator form). -/
def splitOnDotAux : List Char → List Char → List (List Char)
  | [], cur => [cur.reverse]
  | c :: rest, cur =>
    if c == '.' then cur.reverse :: splitOnDotAux rest []
    else splitOnDotAux rest (c :: cur)

/-- Split a string on `'.'`, keeping empty parts. -/
def splitOnDot (s : List Char) : List (List Char) := splitOnDotAux s []

/-! ## Calendar dates -/

/-- A calendar date as Python's `datetime.date` triple. -/
structure Date where
  year : Int
  month : Nat
  day : Nat
deriving DecidableEq, Repr

/-- Gregorian leap-year rule. -/
def isLeap (y : Int) : Bool :=
  (y % 4 == 0 && y % 100 != 0) || y % 400 == 0

/-- Number of days in a month of a given year. -/
def daysInMonth (y : Int) (m : Nat) : Nat :=
  if m = 2 then (if isLeap y then 29 else 28)
  else if m = 4 ∨ m = 6 ∨ m = 9 ∨ m = 11 then 30
  else 31

/-- Chronological strict order on dates (Python `date <`), lexicographic on
(year, month, day). -/
def dlt (a b : Date) : Bool :=
  decide (a.year < b.year ∨
    (a.year = b.year ∧ (a.month < b.month ∨ (a.month = b.month ∧ a.day < b.day))))

/-- Day number of a date (proleptic Gregorian, epoch 1970-01-01 = 0); used
to embed Python's `(d1 - d2).days`. -/
def toRD (d : Date) : Int :=
  let y : Int := if d.month ≤ 2 then d.year - 1 else d.year
  let m : Int := d.month
  let era : Int := Int.fdiv y 400
  let yoe : Int := y - era * 400
  let doy : Int := Int.fdiv (153 * (m + (if 2 < m then -3 else 9)) + 2) 5 + (d.day : Int) - 1
  let doe : Int := yoe * 365 + Int.fdiv yoe 4 - Int.fdiv yoe 100 + doy
  era * 146097 + doe - 719468

/-! ## Records and the address book -/

/-- One contact (`Record`).  Field wrapper classes (`Name`, `Phone`, …)
store plain strings once validated, so the embedding keeps the payloads
directly. -/
structure Record where
  name : List Char
  surname : List Char
  address : List Char
  email : List Char
  phones : List (List Char)
  birthday : Option Date
  contact_notes : List (List Char)
deriving DecidableEq, Repr

/-- The `AddressBook` dict as an insertion-ordered association list with
unique keys. -/
abbrev Book := List (List Char × Record)

/-- Python `dict.__setitem__`: replace in place when the key exists (its
position is kept), append otherwise. -/
def dictInsert {α : Type} (k : List Char) (v : α) :
    List (List Char × α) → List (List Char × α)
  | [] => [(k, v)]
  | (k0, v0) :: rest =>
    if k0 = k then (k0, v) :: rest else (k0, v0) :: dictInsert k v rest

/-- Python `dict.get(key)` over the association list. -/
def assocFind (book : Book) (key : List Char) : Option Record :=
  match book with
  | [] => none
  | (k, r) :: rest => if k = key then some r else assocFind rest key

/-- `make_key(name, surname)`: `f"{name} {surname}".strip().lower()`. -/
def makeKey (name surname : List Char) : List Char :=
  lowerCL (strip (name ++ ' ' :: surname))

/-- `make_key_from_input(fullname)`: split with `maxsplit=1` and feed the
parts to `make_key`.  An all-blank input gives `make_key` no arguments at
all (an uncaught `TypeError` in the source), embedded as `none`. -/
def makeKeyFromInput (fullname : List Char) : Option (List Char) :=
  match splitMax1 fullname with
  | [n] => some (makeKey n [])
  | [n, r] => some (makeKey n r)
  | _ => none

/-- Single-function validator of `Phone`: accepted iff
`value.isdigit() and len(value) == 10`. -/
def phoneAccepts (s : List Char) : Bool := pyIsDigit s && s.length == 10

/-- The `Email` regex `[^@]+@[^@]+\.[^@]+` as a Boolean acceptor
(fullmatch): exactly one `@`, non-empty local part, and after the `@` a dot
that is neither the first nor the last character. -/
def emailShape (s : List Char) : Bool :=
  let l := s.takeWhile (fun c => c != '@')
  match s.dropWhile (fun c => c != '@') with
  | [] => false
  | _ :: r =>
    !l.isEmpty && r.all (fun c => c != '@') &&
    ((r.drop 1).dropLast.any (fun c => c == '.'))

/-- The candidate keys of `get_record_key`: store keys (in insertion order)
containing every lowercased input part as a substring. -/
def candKeys (parts : List (List Char)) (book : Book) : List (List Char) :=
  (book.map Prod.fst).filter fun k => parts.all fun p => isSubCL (lowerCL p) k

/-- `get_record_key(name, book)` with the disambiguation answer the console
would supply passed in as `selection`. -/
def getRecordKey (name : List Char) (book : Book) (selection : List Char) :
    Option (List Char) :=
  match splitMax1 name with
  | [] => none
  | p :: ps =>
    match candKeys (p :: ps) book with
    | [] => none
    | [k] => some k
    | k1 :: k2 :: rest =>
      if pyIsDigit selection = true ∧ 1 ≤ natOfDigits selection ∧
          natOfDigits selection ≤ (k1 :: k2 :: rest).length
      then (k1 :: k2 :: rest).get? (natOfDigits selection - 1)
      else none

/-- `AddressBook.delete(name)`: `del self.data[make_key_from_input(name)]`.
`none` is the `KeyError` path (caught upstream; the book is untouched). -/
def abDelete (book : Book) (name : List Char) : Option Book :=
  match makeKeyFromInput name with
  | none => none
  | some key =>
    if (book.map Prod.fst).contains key
    then some (book.filter fun kv => !(kv.1 == key))
    else none

/-- The `add` branch of `handle_contact` with all arguments supplied
(`add <Name> [Surname] [Phone] [Email] [Address]`).  Result: the book after
the call together with `some created?` on success, or `none` when a field
validator raised `ValueError` (caught by `input_error`).  On the update
path Python mutates the record in place field by field, so a phone already
appended survives a later e-mail validation failure; the returned book
reflects that partial mutation. -/
def addContact (book : Book) (name surname phone email address : List Char) :
    Book × Option Bool :=
  let key := makeKey name surname
  match assocFind book key with
  | some rec =>
    if phone ≠ [] ∧ phoneAccepts phone = false then (book, none)
    else
      let rec1 := if phone ≠ [] then { rec with phones := rec.phones ++ [phone] } else rec
      let rec2 := if surname ≠ [] then { rec1 with surname := surname } else rec1
      if email ≠ [] ∧ emailShape (strip email) = false then (dictInsert key rec2 book, none)
      else
        let rec3 := if email ≠ [] then { rec2 with email := strip email } else rec2
        let rec4 := if address ≠ [] then { rec3 with address := address } else rec3
        (dictInsert key rec4 book, some false)
  | none =>
    if (strip name).isEmpty ∨ (email ≠ [] ∧ emailShape (strip email) = false) ∨
        (phone ≠ [] ∧ phoneAccepts phone = false) then (book, none)
    else
      (dictInsert key
        { name := strip name, surname := surname, address := address,
          email := if email ≠ [] then strip email else [],
          phones := if phone ≠ [] then [phone] else [],
          birthday := none, contact_notes := [] } book, some true)

/-! ## Birthday window engine -/

/-- `datetime.date(y, month, day)` inside the `try`, with the `except
ValueError` branch substituting `date(y, 2, 28)`.  For the (month, day) of
a stored valid birthday the only possible failure is Feb 29 in a non-leap
year, i.e. `day > daysInMonth y month`. -/
def projectOnto (y : Int) (month day : Nat) : Date :=
  if day ≤ daysInMonth y month then ⟨y, month, day⟩ else ⟨y, 2, 28⟩

/-- The projected next birthday of `AddressBook.upcoming`: this year's
occurrence, or next year's when this year's already passed, with the
Feb-28 substitution on both tries. -/
def nextBd (today : Date) (b : Date) : Date :=
  let cand := projectOnto today.year b.month b.day
  if dlt cand today then projectOnto (today.year + 1) b.month b.day else cand

/-- The loop body of `AddressBook.upcoming` for one record: `none` when the
record is skipped, otherwise the `(key, (next_date, age_turning))` entry
written into the result dict.  The key written is `rec.name.value`. -/
def upcomingEntry (today : Date) (daysAhead : Int) (rec : Record) :
    Option (List Char × (Date × Int)) :=
  match rec.birthday with
  | none => none
  | some b =>
    let nb := nextBd today b
    let delta := toRD nb - toRD today
    if 0 ≤ delta ∧ delta ≤ daysAhead then
      some (rec.name, (nb, nb.year - b.year))
    else none

/-- One iteration of the `upcoming` loop, writing into the result dict. -/
def upcStep (today : Date) (daysAhead : Int)
    (acc : List (List Char × (Date × Int))) (kv : List Char × Record) :
    List (List Char × (Date × Int)) :=
  match upcomingEntry today daysAhead kv.2 with
  | none => acc
  | some (k, v) => dictInsert k v acc

/-- `AddressBook.upcoming(days_ahead)`, with `today` passed explicitly. -/
def upcoming (today : Date) (book : Book) (daysAhead : Int) :
    List (List Char × (Date × Int)) :=
  book.foldl (upcStep today daysAhead) []

/-! ## Notes and keyword search -/

/-- A `GeneralNote` as the keyword matcher sees it: stored text and tag
list (the creation date plays no part in matching). -/
structure GeneralNote where
  text : List Char
  tags : List (List Char)
deriving DecidableEq, Repr

/-- `simple_match(query, note)`: every lowercased `\w+` token of the query
must occur as a substring of the lowercased text or of the lowercased
space-joined tags.  (The source collects the tokens into a set; `all` over
the token list is unchanged by deduplication.) -/
def simpleMatch (query : List Char) (note : GeneralNote) : Bool :=
  let qWords := (wordTokens query).map lowerCL
  let text := lowerCL note.text
  let tags := lowerCL (joinSpace note.tags)
  qWords.all fun w => isSubCL w text || isSubCL w tags

/-! ## Birthday validator -/

/-- The day field of CPython's `strptime` `%d`:
`3[0-1]|[1-2]\d|0[1-9]|[1-9]| [1-9]`. -/
def dayField (s : List Char) : Bool :=
  match s with
  | [c] => '1' ≤ c && c ≤ '9'
  | [c1, c2] =>
    (c1 == '3' && (c2 == '0' || c2 == '1')) ||
    ((c1 == '1' || c1 == '2') && c2.isDigit) ||
    (c1 == '0' && '1' ≤ c2 && c2 ≤ '9') ||
    (c1 == ' ' && '1' ≤ c2 && c2 ≤ '9')
  | _ => false

/-- The month field of `strptime` `%m`: `1[0-2]|0[1-9]|[1-9]`. -/
def monthField (s : List Char) : Bool :=
  match s with
  | [c] => '1' ≤ c && c ≤ '9'
  | [c1, c2] =>
    (c1 == '1' && (c2 == '0' || c2 == '1' || c2 == '2')) ||
    (c1 == '0' && '1' ≤ c2 && c2 ≤ '9')
  | _ => false

/-- The year field of `strptime` `%Y`: exactly four digits. -/
def yearField (s : List Char) : Bool :=
  s.length == 4 && s.all Char.isDigit

/-- Numeric value of a day field (a leading space acts like a zero). -/
def dayValue (s : List Char) : Nat := natOfDigits (s.filter Char.isDigit)

/-- `datetime.strptime(value, "%d.%m.%Y").date()` as an option: the three
dot-separated fields must match the `%d`, `%m`, `%Y` patterns (none of
which can contain a dot, so the regex match coincides with the dot split),
and the triple must be a constructible date (`1 ≤ year`, day within the
month). -/
def parseBirthdayDate (s : List Char) : Option Date :=
  match splitOnDot s with
  | [d, m, y] =>
    if dayField d && monthField m && yearField y then
      let dn := dayValue d
      let mn := natOfDigits m
      let yn : Int := natOfDigits y
      if 1 ≤ yn ∧ dn ≤ daysInMonth yn mn then some ⟨yn, mn, dn⟩ else none
    else none
  | _ => none

/-- The `Birthday` validator: parse with `strptime("%d.%m.%Y")`, then
reject a date strictly after `today`. -/
def birthdayAccepts (today : Date) (s : List Char) : Bool :=
  match parseBirthdayDate s with
  | none => false
  | some d => !dlt today d

/-! ## Spec-side definitions (for refinement comparisons only)

These two follow the spec's wording rather than the source, so that
theorems can compare the two. -/

/-- Spec §4.4's projection rule for a Feb-29 birthday, written from the
spec's words: this year's Feb 29, with Feb 28 substituted when the current
year is not a leap year; if the resulting date precedes today, the same
rule applied to the next year. -/
def specFeb29Next (today : Date) : Date :=
  let cand : Date :=
    if isLeap today.year then ⟨today.year, 2, 29⟩ else ⟨today.year, 2, 28⟩
  if dlt cand today then
    if isLeap (today.year + 1) then ⟨today.year + 1, 2, 29⟩
    else ⟨today.year + 1, 2, 28⟩
  else cand

/-- The claim's birthday input format, written from the spec's words:
day.month.year with fixed 2-2-4 digit widths. -/
def spec224 (s : List Char) : Bool :=
  match splitOnDot s with
  | [d, m, y] =>
    d.length == 2 && m.length == 2 && y.length == 4 &&
    (d ++ m ++ y).all Char.isDigit
  | _ => false

/-! ## Concrete fixtures for witnesses and counterexamples -/

/-- String literal to character list. -/
def cl (s : String) : List Char := s.toList

/-- A record with only a name and surname. -/
def plainRec (n sn : String) : Record := ⟨cl n, cl sn, [], [], [], none, []⟩

/-- A record with a birthday. -/
def bdayRec (n sn : String) (b : Date) : Record :=
  ⟨cl n, cl sn, [], [], [], some b, []⟩

/-- The spec §8 example store: `{"john smith": R1, "john doe": R2}`. -/
def bookJohn : Book :=
  [(cl "john smith", plainRec "John" "Smith"),
   (cl "john doe", plainRec "John" "Doe")]

/-- Two records with distinct keys but the same stored name, both with
birthdays a week or two ahead of `today0`. -/
def bookAnn : Book :=
  [(cl "ann smith", bdayRec "Ann" "Smith" ⟨1990, 10, 20⟩),
   (cl "ann jones", bdayRec "Ann" "Jones" ⟨1985, 10, 22⟩)]

/-- A fixed evaluation date for concrete examples. -/
def today0 : Date := ⟨2026, 10, 12⟩

/-- The record produced by `add Ann` with phone `1234567890`. -/
def annRec1 : Record := ⟨cl "Ann", [], [], [], [cl "1234567890"], none, []⟩

/-! ## Sanity checks of the day-number function -/

example : toRD ⟨1970, 1, 1⟩ = 0 := by decide

example : toRD ⟨2000, 3, 1⟩ - toRD ⟨2000, 2, 28⟩ = 2 := by decide

example : toRD ⟨2026, 10, 19⟩ - toRD ⟨2026, 10, 12⟩ = 7 := by decide

/-! ## Helper lemmas -/

/-- Closed form of the `upcoming` loop body once the record's birthday is
known. -/
theorem upcomingEntry_eq (today : Date) (daysAhead : Int) (rec : Record)
    (b : Date) (hb : rec.birthday = some b) :
    upcomingEntry today daysAhead rec =
      if 0 ≤ toRD (nextBd today b) - toRD today ∧
          toRD (nextBd today b) - toRD today ≤ daysAhead
      then some (rec.name, (nextBd today b, (nextBd today b).year - b.year))
      else none := by
  simp [upcomingEntry, hb]

/-! ## C8 — phone validator -/

/-- C8: the `Phone` validator accepts a string iff it consists of exactly
ten decimal digits; any other length or any non-digit character is
rejected (a `ValueError`, so nothing is stored). -/
theorem phone_accepts_iff (s : List Char) :
    phoneAccepts s = true ↔ (s.length = 10 ∧ ∀ c ∈ s, Char.isDigit c = true) := by
  simp only [phoneAccepts, pyIsDigit, Bool.and_eq_true, Bool.not_eq_true',
    List.all_eq_true, beq_iff_eq]
  constructor
  · rintro ⟨⟨-, hall⟩, hlen⟩
    exact ⟨hlen, hall⟩
  · rintro ⟨hlen, hall⟩
    refine ⟨⟨?_, hall⟩, hlen⟩
    cases s with
    | nil => simp at hlen
    | cons a t => rfl

/-! ## C10 — empty-token queries match every note -/

/-- C10: a query with no word characters tokenizes to the empty list, so
the all-tokens condition of `simple_match` is vacuously true and the query
matches every note. -/
theorem empty_query_matches (q : List Char) (n : GeneralNote)
    (h : wordTokens q = []) : simpleMatch q n = true := by
  simp [simpleMatch, h]

/-- Witness for C10 at a punctuation-only query. -/
theorem empty_query_matches_witness :
    wordTokens (cl "?!") = [] ∧
    simpleMatch (cl "?!") ⟨cl "red car", []⟩ = true :=
  ⟨by decide, empty_query_matches (cl "?!") ⟨cl "red car", []⟩ (by decide)⟩

/-! ## C4 — note keyword search -/

/-- C4: `simple_match` succeeds iff every lowercased `\w+` token of the
query is a substring of the note's lowercased text or of its lowercased
space-joined tag list; in particular "blue car" matches text "my blue
sedan" with tag "car", and fails on text "red car" with no tags. -/
theorem simple_match_iff (q : List Char) (n : GeneralNote) :
    (simpleMatch q n = true ↔
      ∀ w ∈ (wordTokens q).map lowerCL,
        isSubCL w (lowerCL n.text) = true ∨
        isSubCL w (lowerCL (joinSpace n.tags)) = true) ∧
    simpleMatch (cl "blue car") ⟨cl "my blue sedan", [cl "car"]⟩ = true ∧
    simpleMatch (cl "blue car") ⟨cl "red car", []⟩ = false := by
  refine ⟨?_, by decide, by decide⟩
  simp [simpleMatch, List.all_eq_true]

/-! ## C2 — the birthday window is inclusive at both ends -/

/-- C2: a record with a birthday is included by the `upcoming` loop iff
`0 ≤ (projected − today).days ≤ daysAhead`; a projection exactly
`daysAhead` days out (with `daysAhead ≥ 0`) is included, and one
`daysAhead + 1` days out is excluded. -/
theorem upcoming_window_iff (today : Date) (daysAhead : Int) (rec : Record)
    (b : Date) (hb : rec.birthday = some b) :
    ((upcomingEntry today daysAhead rec).isSome = true ↔
      0 ≤ toRD (nextBd today b) - toRD today ∧
      toRD (nextBd today b) - toRD today ≤ daysAhead) ∧
    (toRD (nextBd today b) - toRD today = daysAhead → 0 ≤ daysAhead →
      (upcomingEntry today daysAhead rec).isSome = true) ∧
    (toRD (nextBd today b) - toRD today = daysAhead + 1 →
      upcomingEntry today daysAhead rec = none) := by
  have he := upcomingEntry_eq today daysAhead rec b hb
  refine ⟨?_, ?_, ?_⟩
  · rw [he]
    split_ifs with h
    · simp [h]
    · simp [h]
      omega
  · intro h1 h2
    rw [he, if_pos ⟨by omega, by omega⟩]
    rfl
  · intro h1
    rw [he, if_neg (by omega)]

/-- Witness for C2: on 2026-10-12, a birthday falling on 2026-10-19 is
exactly 7 days out and is included with a 7-day window. -/
theorem upcoming_window_iff_witness :
    (bdayRec "Olha" "K" ⟨1990, 10, 19⟩).birthday = some ⟨1990, 10, 19⟩ ∧
    toRD (nextBd today0 ⟨1990, 10, 19⟩) - toRD today0 = 7 ∧
    (upcomingEntry today0 7 (bdayRec "Olha" "K" ⟨1990, 10, 19⟩)).isSome = true :=
  ⟨rfl, by decide,
    (upcoming_window_iff today0 7 (bdayRec "Olha" "K" ⟨1990, 10, 19⟩)
      ⟨1990, 10, 19⟩ rfl).2.1 (by decide) (by decide)⟩

/-! ## C3 — Feb-29 projection and reported age -/

/-- The code's ValueError fallback at (month, day) = (2, 29) is exactly the
leap-year substitution. -/
theorem projectOnto_feb29 (y : Int) :
    projectOnto y 2 29 = if isLeap y then ⟨y, 2, 29⟩ else ⟨y, 2, 28⟩ := by
  simp only [projectOnto, daysInMonth]
  cases h : isLeap y <;> simp [h]

/-- C3: for a Feb-29 birthday the projected date computed by `upcoming` is
exactly the spec's rule (Feb 28 in a non-leap current year, re-projected
onto the next year with the same substitution when already past), and any
entry the loop emits for such a record carries that date and the age
`projected.year − birth_year`. -/
theorem feb29_projection (today b : Date) (rec : Record) (daysAhead : Int)
    (hb : rec.birthday = some b) (hm : b.month = 2) (hd : b.day = 29) :
    nextBd today b = specFeb29Next today ∧
    ∀ k dt age, upcomingEntry today daysAhead rec = some (k, (dt, age)) →
      dt = specFeb29Next today ∧ age = (specFeb29Next today).year - b.year := by
  have hnb : nextBd today b = specFeb29Next today := by
    simp only [nextBd, specFeb29Next, hm, hd, projectOnto_feb29]
  refine ⟨hnb, ?_⟩
  intro k dt age h
  rw [upcomingEntry_eq today daysAhead rec b hb] at h
  split_ifs at h with hc
  simp only [Option.some.injEq, Prod.mk.injEq] at h
  obtain ⟨-, h2, h3⟩ := h
  constructor
  · rw [← h2, hnb]
  · rw [← h3, hnb]

/-- Witness for C3: birthday 29.02.2000 evaluated on 2025-01-15 (2025 is
not a leap year) projects to 28.02.2025 with age 25. -/
theorem feb29_projection_witness :
    (bdayRec "Lev" "M" ⟨2000, 2, 29⟩).birthday = some ⟨2000, 2, 29⟩ ∧
    specFeb29Next ⟨2025, 1, 15⟩ = ⟨2025, 2, 28⟩ ∧
    nextBd ⟨2025, 1, 15⟩ ⟨2000, 2, 29⟩ = specFeb29Next ⟨2025, 1, 15⟩ ∧
    (2025 : Int) - 2000 = 25 :=
  ⟨rfl, by decide,
    (feb29_projection ⟨2025, 1, 15⟩ ⟨2000, 2, 29⟩
      (bdayRec "Lev" "M" ⟨2000, 2, 29⟩) 60 rfl rfl rfl).1,
    by decide⟩

/-! ## C9 — birthday validator -/

/-- C9 counterexample: the code accepts `"5.6.1999"` (single-digit day and
month), which is outside the claimed fixed 2-2-4 digit format. -/
theorem birthday_width_counterexample :
    birthdayAccepts today0 (cl "5.6.1999") = true ∧
    spec224 (cl "5.6.1999") = false := by
  constructor <;> decide

/-- C9 amended: the validator accepts exactly the strings `d.m.y` whose
day matches `strptime`'s `%d` pattern (1–2 digits in 1..31, or a space and
a digit), month matches `%m` (1–2 digits in 1..12), year is exactly four
digits, and which denote a constructible calendar date not after today
(today itself accepted). -/
theorem birthday_accepts_iff (today : Date) (s : List Char) :
    birthdayAccepts today s = true ↔
      ∃ d m y, splitOnDot s = [d, m, y] ∧ dayField d = true ∧
        monthField m = true ∧ yearField y = true ∧
        1 ≤ (natOfDigits y : Int) ∧
        dayValue d ≤ daysInMonth (natOfDigits y) (natOfDigits m) ∧
        dlt today ⟨(natOfDigits y : Int), natOfDigits m, dayValue d⟩ = false := by
  unfold birthdayAccepts parseBirthdayDate
  rcases hs : splitOnDot s with _ | ⟨d, _ | ⟨m, _ | ⟨y, _ | ⟨z, rest⟩⟩⟩⟩
  · simp
  · simp
  · simp
  · simp only []
    split_ifs with hf hv
    · rw [Bool.not_eq_true']
      simp only [Bool.and_eq_true] at hf
      constructor
      · intro h
        exact ⟨d, m, y, rfl, hf.1.1, hf.1.2, hf.2, hv.1, hv.2, h⟩
      · rintro ⟨d', m', y', heq, -, -, -, -, -, hlt⟩
        injection heq with h1 heq
        injection heq with h2 heq
        injection heq with h3 heq
        subst h1
        subst h2
        subst h3
        exact hlt
    · constructor
      · intro h
        simp at h
      · rintro ⟨d', m', y', heq, -, -, -, hy1, hdm, -⟩
        injection heq with h1 heq
        injection heq with h2 heq
        injection heq with h3 heq
        subst h1
        subst h2
        subst h3
        exact hv ⟨hy1, hdm⟩
    · constructor
      · intro h
        simp at h
      · rintro ⟨d', m', y', heq, hfd, hfm, hfy, -⟩
        injection heq with h1 heq
        injection heq with h2 heq
        injection heq with h3 heq
        subst h1
        subst h2
        subst h3
        simp [hfd, hfm, hfy] at hf
  · simp

/-! ## C7 — keys of the `upcoming` output -/

/-- Membership after a dict write: the element is the written pair or was
already present. -/
theorem mem_dictInsert {α : Type} {k : List Char} {v : α} :
    ∀ {l : List (List Char × α)} {x : List Char × α},
      x ∈ dictInsert k v l → x = (k, v) ∨ x ∈ l := by
  intro l
  induction l with
  | nil =>
    intro x hx
    simp only [dictInsert, List.mem_singleton] at hx
    exact Or.inl hx
  | cons hd tl ih =>
    intro x hx
    obtain ⟨k0, v0⟩ := hd
    by_cases h : k0 = k
    · rw [dictInsert, if_pos h] at hx
      rcases List.mem_cons.mp hx with h1 | h1
      · exact Or.inl (by rw [h1, h])
      · exact Or.inr (List.mem_cons_of_mem _ h1)
    · rw [dictInsert, if_neg h] at hx
      rcases List.mem_cons.mp hx with h1 | h1
      · exact Or.inr (h1 ▸ List.mem_cons_self _ _)
      · rcases ih h1 with h2 | h2
        · exact Or.inl h2
        · exact Or.inr (List.mem_cons_of_mem _ h2)

/-- Every element of the `upcoming` fold comes from the accumulator or is
the loop-body entry of some stored record. -/
theorem upcoming_fold_mem (today : Date) (daysAhead : Int) :
    ∀ (book : Book) (acc : List (List Char × (Date × Int)))
      (x : List Char × (Date × Int)),
      x ∈ book.foldl (upcStep today daysAhead) acc →
      x ∈ acc ∨ ∃ k r, (k, r) ∈ book ∧
        upcomingEntry today daysAhead r = some x := by
  intro book
  induction book with
  | nil =>
    intro acc x hx
    rw [List.foldl_nil] at hx
    exact Or.inl hx
  | cons hd tl ih =>
    intro acc x hx
    rw [List.foldl_cons] at hx
    rcases ih _ x hx with h | ⟨k, r, hmem, he⟩
    · unfold upcStep at h
      rcases hcase : upcomingEntry today daysAhead hd.2 with _ | ⟨ke, ve⟩
      · rw [hcase] at h
        exact Or.inl h
      · rw [hcase] at h
        rcases mem_dictInsert h with h1 | h1
        · exact Or.inr ⟨hd.1, hd.2, List.mem_cons_self _ _, by rw [hcase, h1]⟩
        · exact Or.inl h1
    · exact Or.inr ⟨k, r, List.mem_cons_of_mem _ hmem, he⟩

/-- The key of an emitted entry is the record's stored name. -/
theorem upcomingEntry_name (today : Date) (daysAhead : Int) (rec : Record)
    (x : List Char × (Date × Int))
    (h : upcomingEntry today daysAhead rec = some x) : x.1 = rec.name := by
  rcases hb : rec.birthday with _ | b
  · rw [upcomingEntry, hb] at h
    cases h
  · rw [upcomingEntry_eq today daysAhead rec b hb] at h
    split_ifs at h
    injection h with h1
    rw [← h1]

/-- C7 counterexample: two stored records with distinct keys
(`"ann smith"`, `"ann jones"`) and birthdays inside the window produce a
single output entry, keyed by the shared stored name `"Ann"` — not two
entries keyed by the store keys. -/
theorem upcoming_keys_counterexample :
    (upcoming today0 bookAnn 30).map Prod.fst = [cl "Ann"] ∧
    (upcoming today0 bookAnn 30).length = 1 ∧
    bookAnn.map Prod.fst = [cl "ann smith", cl "ann jones"] ∧
    (∀ rec ∈ bookAnn.map Prod.snd, (upcomingEntry today0 30 rec).isSome = true) := by
  refine ⟨by decide, by decide, by decide, by decide⟩

/-- C7 amended: every entry of the `upcoming` output is the loop-body
entry of some stored record and is keyed by that record's stored name
(`rec.name.value`), not by the normalized store key; records sharing a
name therefore collide in the output dict. -/
theorem upcoming_keys_amended (today : Date) (daysAhead : Int) (book : Book)
    (x : List Char × (Date × Int)) (hx : x ∈ upcoming today book daysAhead) :
    ∃ k r, (k, r) ∈ book ∧ upcomingEntry today daysAhead r = some x ∧
      x.1 = r.name := by
  rcases upcoming_fold_mem today daysAhead book [] x hx with h | ⟨k, r, hm, he⟩
  · cases h
  · exact ⟨k, r, hm, he, upcomingEntry_name today daysAhead r x he⟩

/-- Witness for C7 (amended): the single entry produced from `bookAnn`
traces back to the record `"ann jones"` and carries its stored name. -/
theorem upcoming_keys_amended_witness :
    (cl "Ann", (⟨2026, 10, 22⟩ : Date), (41 : Int)) ∈ upcoming today0 bookAnn 30 ∧
    ∃ k r, (k, r) ∈ bookAnn ∧
      upcomingEntry today0 30 r = some (cl "Ann", (⟨2026, 10, 22⟩ : Date), (41 : Int)) ∧
      (cl "Ann") = r.name :=
  ⟨by decide,
    upcoming_keys_amended today0 30 bookAnn
      (cl "Ann", (⟨2026, 10, 22⟩ : Date), (41 : Int)) (by decide)⟩

/-! ## C6 — delete -/

/-- C6 counterexample: with store `{"john smith": R}`, the input `"john"`
resolves uniquely under the lookup substring rule, yet `delete` fails
(`KeyError` path, `none`), because it looks up the exact normalized key
`"john"` instead of using the resolver. -/
theorem delete_counterexample :
    getRecordKey (cl "john") [(cl "john smith", plainRec "John" "Smith")] [] =
      some (cl "john smith") ∧
    abDelete [(cl "john smith", plainRec "John" "Smith")] (cl "john") = none := by
  refine ⟨by decide, by decide⟩

/-- C6 amended: `delete` computes the exact normalized key of its input
(first token as name, remainder as surname, lowercased) and removes that
key when present; when the key is absent — even if the substring rule
would resolve the input — it fails with `KeyError`, and the store is
unmodified on failure (`none` carries no new store). -/
theorem delete_spec (book : Book) (nm : List Char) :
    (∀ key, makeKeyFromInput nm = some key →
      (key ∈ book.map Prod.fst →
        abDelete book nm = some (book.filter fun kv => !(kv.1 == key))) ∧
      (key ∉ book.map Prod.fst → abDelete book nm = none)) ∧
    (makeKeyFromInput nm = none → abDelete book nm = none) := by
  constructor
  · intro key hk
    constructor
    · intro hmem
      simp [abDelete, hk, hmem]
    · intro hmem
      simp [abDelete, hk, hmem]
  · intro hk
    simp [abDelete, hk]

/-- Witness for C6 (amended): deleting `"John Smith"` from the two-record
store removes exactly the `"john smith"` entry. -/
theorem delete_spec_witness :
    makeKeyFromInput (cl "John Smith") = some (cl "john smith") ∧
    abDelete bookJohn (cl "John Smith") =
      some (bookJohn.filter fun kv => !(kv.1 == cl "john smith")) :=
  ⟨by decide,
    ((delete_spec bookJohn (cl "John Smith")).1 (cl "john smith")
      (by decide)).1 (by decide)⟩

/-! ## C5 — add-or-update -/

/-- C5: with valid supplied fields, the `add` handler keyed by
`make_key(name, surname)` merges only the non-empty fields into an
existing record — the phone is appended to the phone list, while surname,
e-mail and address are replaced — and reports "updated" (`some false`);
when the key is absent it creates a fresh record with the supplied fields
and reports "created" (`some true`). -/
theorem add_or_update_spec (book : Book)
    (name surname phone email address : List Char)
    (hp : phone ≠ [] → phoneAccepts phone = true)
    (he : email ≠ [] → emailShape (strip email) = true)
    (hn : (strip name).isEmpty = false) :
    (∀ rec, assocFind book (makeKey name surname) = some rec →
      addContact book name surname phone email address =
        (dictInsert (makeKey name surname)
          { rec with
            phones := if phone ≠ [] then rec.phones ++ [phone] else rec.phones
            surname := if surname ≠ [] then surname else rec.surname
            email := if email ≠ [] then strip email else rec.email
            address := if address ≠ [] then address else rec.address } book,
         some false)) ∧
    (assocFind book (makeKey name surname) = none →
      addContact book name surname phone email address =
        (dictInsert (makeKey name surname)
          { name := strip name, surname := surname, address := address,
            email := if email ≠ [] then strip email else [],
            phones := if phone ≠ [] then [phone] else [],
            birthday := none, contact_notes := [] } book,
         some true)) := by
  have hpc : ¬(phone ≠ [] ∧ phoneAccepts phone = false) := by
    rintro ⟨h1, h2⟩
    rw [hp h1] at h2
    cases h2
  have hec : ¬(email ≠ [] ∧ emailShape (strip email) = false) := by
    rintro ⟨h1, h2⟩
    rw [he h1] at h2
    cases h2
  constructor
  · intro rec hrec
    rw [addContact, hrec]
    simp only []
    rw [if_neg hpc, if_neg hec]
    by_cases h1 : phone = [] <;> by_cases h2 : surname = [] <;>
      by_cases h3 : email = [] <;> by_cases h4 : address = [] <;>
      simp [h1, h2, h3, h4]
  · intro hnone
    have hcond : ¬((strip name).isEmpty = true ∨
        (email ≠ [] ∧ emailShape (strip email) = false) ∨
        (phone ≠ [] ∧ phoneAccepts phone = false)) := by
      rintro (h | h | h)
      · rw [hn] at h
        cases h
      · exact hec h
      · exact hpc h
    rw [addContact, hnone]
    simp only []
    rw [if_neg hcond]

/-- Witness for C5: the Ann round trip — adding name "Ann" with phone
`1234567890` creates a record; adding again with phone `0987654321`
updates the same single record, whose phone list becomes the two phones in
order. -/
theorem add_or_update_spec_witness :
    addContact [] (cl "Ann") [] (cl "1234567890") [] [] =
      ([(cl "ann", annRec1)], some true) ∧
    addContact [(cl "ann", annRec1)] (cl "Ann") [] (cl "0987654321") [] [] =
      (dictInsert (makeKey (cl "Ann") [])
        { annRec1 with
          phones := if (cl "0987654321") ≠ [] then annRec1.phones ++ [cl "0987654321"]
            else annRec1.phones
          surname := if ([] : List Char) ≠ [] then [] else annRec1.surname
          email := if ([] : List Char) ≠ [] then strip [] else annRec1.email
          address := if ([] : List Char) ≠ [] then [] else annRec1.address }
        [(cl "ann", annRec1)], some false) ∧
    (addContact [(cl "ann", annRec1)] (cl "Ann") [] (cl "0987654321") [] []).1.map
      (fun kv => kv.2.phones) = [[cl "1234567890", cl "0987654321"]] :=
  ⟨by decide,
    (add_or_update_spec [(cl "ann", annRec1)] (cl "Ann") [] (cl "0987654321") [] []
      (fun _ => by decide) (fun h => absurd rfl h) (by decide)).1 annRec1 (by decide),
    by decide⟩

/-! ## C1 — key resolution -/

/-- `get_record_key` once the `maxsplit=1` split of the input is known. -/
theorem getRecordKey_eq (nm sel : List Char) (book : Book)
    (p : List Char) (ps : List (List Char)) (hps : splitMax1 nm = p :: ps) :
    getRecordKey nm book sel =
      match candKeys (p :: ps) book with
      | [] => none
      | [k] => some k
      | k1 :: k2 :: rest =>
        if pyIsDigit sel = true ∧ 1 ≤ natOfDigits sel ∧
            natOfDigits sel ≤ (k1 :: k2 :: rest).length
        then (k1 :: k2 :: rest).get? (natOfDigits sel - 1)
        else none := by
  unfold getRecordKey
  rw [hps]

/-- C1 counterexample: with store key `"a b c"` and input `"a c b"`, full
whitespace tokenization gives tokens {a, c, b}, all substrings of the key,
so the claim demands the unique candidate `"a b c"`; the code splits with
`maxsplit=1` into `["a", "c b"]`, finds no key containing `"c b"`, and
fails. -/
theorem resolver_tokens_counterexample :
    splitWs (cl "a c b") = [cl "a", cl "c", cl "b"] ∧
    ([(cl "a b c", plainRec "A" "BC")].map Prod.fst).filter
      (fun k => (splitWs (cl "a c b")).all fun q => isSubCL (lowerCL q) k) =
      [cl "a b c"] ∧
    getRecordKey (cl "a c b") [(cl "a b c", plainRec "A" "BC")] [] = none := by
  refine ⟨by decide, by decide, by decide⟩

/-- C1 amended: the resolver splits the input with `maxsplit=1` (first
whitespace-delimited token, then the rest as one part); the candidates are
exactly the store keys — stored lowercase — containing every lowercased
part as a substring (hence case-insensitively), in store order.  No
candidate fails; a unique candidate is returned; with several candidates a
digit-string selection `i` with `1 ≤ i ≤ count` returns the i-th candidate
and anything else fails. -/
theorem resolver_amended (nm sel : List Char) (book : Book)
    (hne : splitMax1 nm ≠ [])
    (hlow : ∀ k ∈ book.map Prod.fst, lowerCL k = k) :
    (∀ k, k ∈ candKeys (splitMax1 nm) book ↔
      (k ∈ book.map Prod.fst ∧
       ∀ q ∈ splitMax1 nm, isSubCL (lowerCL q) (lowerCL k) = true)) ∧
    (candKeys (splitMax1 nm) book = [] → getRecordKey nm book sel = none) ∧
    (∀ k, candKeys (splitMax1 nm) book = [k] →
      getRecordKey nm book sel = some k) ∧
    (2 ≤ (candKeys (splitMax1 nm) book).length →
      ((pyIsDigit sel = true ∧ 1 ≤ natOfDigits sel ∧
          natOfDigits sel ≤ (candKeys (splitMax1 nm) book).length) →
        getRecordKey nm book sel =
          (candKeys (splitMax1 nm) book).get? (natOfDigits sel - 1) ∧
        ((candKeys (splitMax1 nm) book).get? (natOfDigits sel - 1)).isSome
          = true) ∧
      (¬(pyIsDigit sel = true ∧ 1 ≤ natOfDigits sel ∧
          natOfDigits sel ≤ (candKeys (splitMax1 nm) book).length) →
        getRecordKey nm book sel = none)) := by
  obtain ⟨p, ps, hps⟩ : ∃ p ps, splitMax1 nm = p :: ps := by
    cases h : splitMax1 nm with
    | nil => exact absurd h hne
    | cons a t => exact ⟨a, t, rfl⟩
  rw [hps]
  refine ⟨?_, ?_, ?_, ?_⟩
  · intro k
    unfold candKeys
    rw [List.mem_filter]
    constructor
    · rintro ⟨hk, hall⟩
      rw [List.all_eq_true] at hall
      refine ⟨hk, ?_⟩
      intro q hq
      have hs := hall q hq
      rwa [hlow k hk]
    · rintro ⟨hk, hall⟩
      refine ⟨hk, ?_⟩
      rw [List.all_eq_true]
      intro q hq
      have hs := hall q hq
      rwa [hlow k hk] at hs
  · intro hm
    rw [getRecordKey_eq nm sel book p ps hps, hm]
  · intro k hm
    rw [getRecordKey_eq nm sel book p ps hps, hm]
  · intro hlen
    rcases hm : candKeys (p :: ps) book with _ | ⟨k1, _ | ⟨k2, rest⟩⟩
    · rw [hm] at hlen
      simp at hlen
    · rw [hm] at hlen
      simp at hlen
    · constructor
      · intro hsel
        have hlt : natOfDigits sel - 1 < (k1 :: k2 :: rest).length := by
          rcases hsel with ⟨-, h1, h2⟩
          simp only [List.length_cons] at h2 ⊢
          omega
        constructor
        · rw [getRecordKey_eq nm sel book p ps hps, hm]
          simp only []
          rw [if_pos hsel]
        · rw [List.get?_eq_get hlt]
          rfl
      · intro hsel
        rw [getRecordKey_eq nm sel book p ps hps, hm]
        simp only []
        rw [if_neg hsel]

/-- Witness for C1 (amended), on the spec §8 store: resolving `"john"`
yields both keys as candidates and selection `"2"` returns the second,
`"john doe"`. -/
theorem resolver_amended_witness :
    (splitMax1 (cl "john") ≠ [] ∧
      ∀ k ∈ bookJohn.map Prod.fst, lowerCL k = k) ∧
    getRecordKey (cl "john") bookJohn (cl "2") =
      (candKeys (splitMax1 (cl "john")) bookJohn).get?
        (natOfDigits (cl "2") - 1) ∧
    ((candKeys (splitMax1 (cl "john")) bookJohn).get?
        (natOfDigits (cl "2") - 1)).isSome = true :=
  ⟨⟨by decide, by decide⟩,
    ((resolver_amended (cl "john") (cl "2") bookJohn (by decide)
      (by decide)).2.2.2 (by decide)).1 (by decide)⟩

end TeamProject
